import Mathlib

/-!
Verification of the nix-concierge deployment tool against its specification.

The development shallowly embeds the Rust sources:
* `src/git.rs` — repository status classification and git-URL normalization;
* `src/deploy.rs` — the deployment orchestrator `deploy_nix_configuration`
  and its helpers (`rsync`, `build_docker_compose_yml`, `tag_file_content`,
  `backup_file`, `realtime_command`);
* `src/settings.rs` and `src/main.rs` — the settings record and the CLI
  flag application.

File contents are modelled as `List Char` (the character sequence a Rust
`String` holds), the filesystem of the backup operation as an association
list from paths (component lists) to contents, and the orchestrator's
side effects as an explicit trace of events driven by a `World` oracle
that answers the filesystem and child-process queries the code makes.
-/

/-! ## Repository status classification (src/git.rs, `repo_status`) -/

inductive RepoStatus where
  | Ahead
  | Behind
  | Same
  | Complex
  deriving DecidableEq

/-- The classification at the end of `repo_status` (git.rs lines 125-133),
applied to the `(ahead, behind)` pair `graph_ahead_behind` returned. -/
def repoStatusClassify (ahead behind : Nat) : RepoStatus :=
  if ahead > 0 ∧ behind = 0 then .Ahead
  else if behind > 0 ∧ ahead = 0 then .Behind
  else if ahead = 0 ∧ behind = 0 then .Same
  else .Complex

/-! ## Content tagging (src/deploy.rs, `tag_file_content`)

`tag_file_content` reads the file to a string, splits it with Rust's
`str::lines`, drops every line starting with `# TAGGED:`, appends a fresh
tag line and rewrites the file as the lines joined by `\n`.  Rust's
`str::lines` splits at `\n`, strips one `\r` from the end of every piece
that was terminated by a `\n`, and drops the final piece when it is empty
(i.e. when the string ended with `\n`). -/

/-- Split a character sequence at every newline; the separators are
dropped.  `splitNL` always returns at least one (possibly empty) piece,
like Rust's `split('\n')`. -/
def splitNL : List Char → List (List Char)
  | [] => [[]]
  | c :: rest =>
    match splitNL rest with
    | [] => [[]]
    | p :: ps => if c = '\n' then [] :: p :: ps else (c :: p) :: ps

/-- Strip a single carriage return from the end of a line, as Rust's
`str::lines` does for every `\n`-terminated piece. -/
def stripTrailingCR (l : List Char) : List Char :=
  match l.getLast? with
  | some c => if c = '\r' then l.dropLast else l
  | none => l

/-- Post-processing of the `\n`-split pieces: every piece but the final one
had a terminating `\n` and loses a trailing `\r`; the final piece is kept
as is, except that an empty final piece (a trailing newline) yields no
line. -/
def linesPost : List (List Char) → List (List Char)
  | [] => []
  | [last] => if last = [] then [] else [last]
  | p :: ps => stripTrailingCR p :: linesPost ps

/-- Rust's `str::lines` over the character sequence of the string. -/
def rustLines (content : List Char) : List (List Char) :=
  linesPost (splitNL content)

/-- A line carrying the re-evaluation tag: `starts_with("# TAGGED:")`. -/
def isTagLine (l : List Char) : Bool :=
  "# TAGGED:".data.isPrefixOf l

/-- The tag line `tag_file_content` appends: `# TAGGED: <timestamp>`. -/
def tagLineFor (ts : List Char) : List Char :=
  "# TAGGED: ".data ++ ts

/-- Join lines with `\n`, as `filtered_lines.join("\n")` (no trailing
newline). -/
def joinNL : List (List Char) → List Char
  | [] => []
  | [l] => l
  | l :: rest => l ++ '\n' :: joinNL rest

/-- The content transformation of `tag_file_content` (deploy.rs lines
449-467): keep the lines that do not start with `# TAGGED:`, append the
new tag line, join with newlines. -/
def tagFileContent (content ts : List Char) : List Char :=
  joinNL (((rustLines content).filter (fun l => !(isTagLine l))) ++ [tagLineFor ts])

/-! ### Lemmas about line splitting -/

theorem splitNL_ne_nil (l : List Char) : splitNL l ≠ [] := by
  cases l with
  | nil => simp [splitNL]
  | cons c rest =>
    simp only [splitNL]
    cases h : splitNL rest with
    | nil => simp
    | cons p ps =>
      by_cases hc : c = '\n' <;> simp [hc]

theorem no_newline_of_mem_splitNL (l : List Char) :
    ∀ p ∈ splitNL l, '\n' ∉ p := by
  induction l with
  | nil => intro p hp; simp [splitNL] at hp; simp [hp]
  | cons c rest ih =>
    intro p hp
    simp only [splitNL] at hp
    cases h : splitNL rest with
    | nil => exact absurd h (splitNL_ne_nil rest)
    | cons q qs =>
      rw [h] at hp
      by_cases hc : c = '\n'
      · simp [hc] at hp
        rcases hp with hp | hp | hp
        · simp [hp]
        · exact ih p (by rw [h, hp]; exact List.mem_cons_self q qs)
        · exact ih p (by rw [h]; exact List.mem_cons_of_mem q hp)
      · simp [hc] at hp
        rcases hp with hp | hp
        · subst hp
          intro hmem
          rcases List.mem_cons.mp hmem with h1 | h1
          · exact hc h1.symm
          · exact ih q (by rw [h]; exact List.mem_cons_self q qs) h1
        · exact ih p (by rw [h]; exact List.mem_cons_of_mem q hp)

theorem splitNL_no_newline (l : List Char) (h : '\n' ∉ l) : splitNL l = [l] := by
  induction l with
  | nil => rfl
  | cons c rest ih =>
    have hc : c ≠ '\n' := fun hc => h (hc ▸ List.mem_cons_self c rest)
    have hrest : '\n' ∉ rest := fun hm => h (List.mem_cons_of_mem c hm)
    simp only [splitNL, ih hrest]
    simp [fun hcc => hc hcc]

theorem splitNL_append_newline (l m : List Char) (h : '\n' ∉ l) :
    splitNL (l ++ '\n' :: m) = l :: splitNL m := by
  induction l with
  | nil =>
    simp only [List.nil_append, splitNL]
    cases hm : splitNL m with
    | nil => exact absurd hm (splitNL_ne_nil m)
    | cons p ps => simp
  | cons c rest ih =>
    have hc : c ≠ '\n' := fun hc => h (hc ▸ List.mem_cons_self c rest)
    have hrest : '\n' ∉ rest := fun hm => h (List.mem_cons_of_mem c hm)
    simp only [List.cons_append, splitNL, List.append_eq]
    rw [ih hrest]
    simp [fun hcc => hc hcc]

theorem stripTrailingCR_of_no_cr (l : List Char) (h : l.getLast? ≠ some '\r') :
    stripTrailingCR l = l := by
  unfold stripTrailingCR
  cases hg : l.getLast? with
  | none => rfl
  | some c =>
    by_cases hc : c = '\r'
    · exact absurd (hc ▸ hg) h
    · simp [hc]

/-- Joining lines and re-splitting them is the identity, provided no line
contains a newline, no line ends with a carriage return, and the final
line is nonempty. -/
theorem rustLines_joinNL (L : List (List Char)) (hne : L ≠ [])
    (hnl : ∀ l ∈ L, '\n' ∉ l)
    (hcr : ∀ l ∈ L, l.getLast? ≠ some '\r')
    (hlast : L.getLast? ≠ some []) :
    rustLines (joinNL L) = L := by
  induction L with
  | nil => exact absurd rfl hne
  | cons l rest ih =>
    cases rest with
    | nil =>
      have hl : l ≠ [] := by
        intro h
        exact hlast (by simp [h])
      simp only [joinNL, rustLines,
        splitNL_no_newline l (hnl l (List.mem_cons_self l [])), linesPost]
      simp [hl]
    | cons l' rest' =>
      have hstep : joinNL (l :: l' :: rest') = l ++ '\n' :: joinNL (l' :: rest') := rfl
      rw [rustLines, hstep,
        splitNL_append_newline l _ (hnl l (List.mem_cons_self l _))]
      have hsplit : splitNL (joinNL (l' :: rest')) ≠ [] := splitNL_ne_nil _
      cases hs : splitNL (joinNL (l' :: rest')) with
      | nil => exact absurd hs hsplit
      | cons q qs =>
        have hrec : rustLines (joinNL (l' :: rest')) = l' :: rest' := by
          refine ih (by simp) ?_ ?_ ?_
          · intro x hx; exact hnl x (List.mem_cons_of_mem l hx)
          · intro x hx; exact hcr x (List.mem_cons_of_mem l hx)
          · intro h
            exact hlast (by rw [List.getLast?_cons_cons]; exact h)
        have : linesPost (l :: q :: qs) = stripTrailingCR l :: linesPost (q :: qs) := rfl
        rw [this]
        rw [rustLines, hs] at hrec
        rw [hrec, stripTrailingCR_of_no_cr l (hcr l (List.mem_cons_self l _))]

theorem mem_linesPost (P : List (List Char)) (l : List Char) (h : l ∈ linesPost P) :
    ∃ p ∈ P, l = stripTrailingCR p ∨ l = p := by
  induction P with
  | nil => simp [linesPost] at h
  | cons p ps ih =>
    cases ps with
    | nil =>
      by_cases hp : p = []
      · simp [linesPost, hp] at h
      · simp [linesPost, hp] at h
        exact ⟨p, List.mem_cons_self p [], Or.inr h⟩
    | cons q qs =>
      have : linesPost (p :: q :: qs) = stripTrailingCR p :: linesPost (q :: qs) := rfl
      rw [this] at h
      rcases List.mem_cons.mp h with h1 | h1
      · exact ⟨p, List.mem_cons_self p _, Or.inl h1⟩
      · obtain ⟨r, hr, hlr⟩ := ih h1
        exact ⟨r, List.mem_cons_of_mem p hr, hlr⟩

theorem no_newline_stripTrailingCR (p : List Char) (h : '\n' ∉ p) :
    '\n' ∉ stripTrailingCR p := by
  unfold stripTrailingCR
  cases p.getLast? with
  | none => exact h
  | some c =>
    by_cases hc : c = '\r'
    · simp only [hc, if_pos rfl]
      exact fun hm => h ((List.dropLast_sublist p).mem hm)
    · simp only [if_neg hc]
      exact h

theorem no_newline_of_mem_rustLines (c : List Char) (l : List Char)
    (h : l ∈ rustLines c) : '\n' ∉ l := by
  obtain ⟨p, hp, hlp⟩ := mem_linesPost (splitNL c) l h
  have hnp : '\n' ∉ p := no_newline_of_mem_splitNL c p hp
  rcases hlp with h1 | h1
  · exact h1 ▸ no_newline_stripTrailingCR p hnp
  · exact h1 ▸ hnp

theorem isTagLine_tagLineFor (ts : List Char) : isTagLine (tagLineFor ts) = true := by
  have h : tagLineFor ts = "# TAGGED:".data ++ (' ' :: ts) := by
    unfold tagLineFor
    have : "# TAGGED: ".data = "# TAGGED:".data ++ [' '] := by decide
    rw [this, List.append_assoc]
    rfl
  rw [h]
  exact List.isPrefixOf_iff_prefix.mpr (List.prefix_append _ _)

theorem tagLineFor_ne_nil (ts : List Char) : tagLineFor ts ≠ [] := by
  unfold tagLineFor
  intro h
  have : "# TAGGED: ".data = ('#' : Char) :: " TAGGED: ".data := by decide
  rw [this] at h
  simp at h

theorem tagLineFor_no_newline (ts : List Char) (h : '\n' ∉ ts) :
    '\n' ∉ tagLineFor ts := by
  unfold tagLineFor
  intro hm
  rcases List.mem_append.mp hm with h1 | h1
  · revert h1; decide
  · exact h h1

theorem tagLineFor_no_cr (ts : List Char) (h : ts.getLast? ≠ some '\r') :
    (tagLineFor ts).getLast? ≠ some '\r' := by
  unfold tagLineFor
  rw [List.getLast?_append]
  cases hg : ts.getLast? with
  | none => decide
  | some x =>
    rw [hg] at h
    simpa using h

/-- Claim C5, corrected: tagging a file twice (timestamps free of newlines
and not ending in a carriage return, as RFC3339 timestamps are) leaves
exactly one tag line, built from the most recent timestamp, and preserves
the original non-tag lines verbatim and in order — provided no line of the
original file ends in a carriage return (a lone `\r` at a line's end is
normalized away by the second pass, see the counterexample). -/
theorem c5_tagging_idempotent (c t1 t2 : List Char)
    (hc : ∀ l ∈ rustLines c, l.getLast? ≠ some '\r')
    (h1n : '\n' ∉ t1) (h1r : t1.getLast? ≠ some '\r')
    (h2n : '\n' ∉ t2) (h2r : t2.getLast? ≠ some '\r') :
    rustLines (tagFileContent (tagFileContent c t1) t2)
      = (rustLines c).filter (fun l => !(isTagLine l)) ++ [tagLineFor t2]
    ∧ (rustLines (tagFileContent (tagFileContent c t1) t2)).filter
        (fun l => isTagLine l) = [tagLineFor t2] := by
  classical
  set F := (rustLines c).filter (fun l => !(isTagLine l)) with hF
  have hFnl : ∀ l ∈ F, '\n' ∉ l := fun l hl =>
    no_newline_of_mem_rustLines c l (List.mem_of_mem_filter hl)
  have hFcr : ∀ l ∈ F, l.getLast? ≠ some '\r' := fun l hl =>
    hc l (List.mem_of_mem_filter hl)
  have hFtag : ∀ l ∈ F, isTagLine l = false := by
    intro l hl
    have := (List.mem_filter.mp hl).2
    simpa using this
  have hround : ∀ ts : List Char, '\n' ∉ ts → ts.getLast? ≠ some '\r' →
      rustLines (joinNL (F ++ [tagLineFor ts])) = F ++ [tagLineFor ts] := by
    intro ts hn hr
    apply rustLines_joinNL
    · simp
    · intro l hl
      rcases List.mem_append.mp hl with h1 | h1
      · exact hFnl l h1
      · simp at h1
        exact h1 ▸ tagLineFor_no_newline ts hn
    · intro l hl
      rcases List.mem_append.mp hl with h1 | h1
      · exact hFcr l h1
      · simp at h1
        exact h1 ▸ tagLineFor_no_cr ts hr
    · rw [List.getLast?_concat]
      simp [tagLineFor_ne_nil ts]
  have h1 : rustLines (tagFileContent c t1) = F ++ [tagLineFor t1] := by
    unfold tagFileContent
    exact hround t1 h1n h1r
  have h2 : tagFileContent (tagFileContent c t1) t2
      = joinNL (((rustLines (tagFileContent c t1)).filter (fun l => !(isTagLine l)))
          ++ [tagLineFor t2]) := rfl
  rw [h1, List.filter_append] at h2
  have hFF : F.filter (fun l => !(isTagLine l)) = F :=
    List.filter_eq_self.mpr (by intro a ha; simp [hFtag a ha])
  have htag1 : List.filter (fun l => !(isTagLine l)) [tagLineFor t1] = [] := by
    simp [isTagLine_tagLineFor t1]
  rw [hFF, htag1, List.append_nil] at h2
  have h3 : rustLines (tagFileContent (tagFileContent c t1) t2) = F ++ [tagLineFor t2] := by
    rw [h2]
    exact hround t2 h2n h2r
  refine ⟨h3, ?_⟩
  rw [h3, List.filter_append]
  have : F.filter (fun l => isTagLine l) = [] :=
    List.filter_eq_nil_iff.mpr (by intro a ha; simp [hFtag a ha])
  rw [this, List.nil_append]
  simp [isTagLine_tagLineFor t2]

/-- Claim C5 as stated is false: for the one-line file consisting of a
lone carriage return, tagging twice does not preserve the original line
verbatim — the second pass reads the `\r` as part of a `\r\n` line ending
and strips it, so the line `"\r"` becomes `""`. -/
theorem c5_counterexample :
    ¬ (rustLines (tagFileContent (tagFileContent ['\r'] "a".data) "b".data)
        = (rustLines ['\r']).filter (fun l => !(isTagLine l)) ++ [tagLineFor "b".data]) := by
  decide

/-- Concrete instance of the corrected C5 statement. -/
theorem c5_witness :
    rustLines (tagFileContent (tagFileContent "line one\nline two".data
        "2023-06-16T11:12:00+10:00".data) "2024-01-01T00:00:00+10:00".data)
      = ("line one\nline two".data |> rustLines).filter (fun l => !(isTagLine l))
          ++ [tagLineFor "2024-01-01T00:00:00+10:00".data]
    ∧ (rustLines (tagFileContent (tagFileContent "line one\nline two".data
        "2023-06-16T11:12:00+10:00".data) "2024-01-01T00:00:00+10:00".data)).filter
        (fun l => isTagLine l) = [tagLineFor "2024-01-01T00:00:00+10:00".data] :=
  c5_tagging_idempotent "line one\nline two".data "2023-06-16T11:12:00+10:00".data
    "2024-01-01T00:00:00+10:00".data (by decide) (by decide) (by decide) (by decide) (by decide)

/-- Claim C7: the status classification is total and maps each
`(ahead, behind)` pair to exactly one of the four variants by the
specified rule. -/
theorem c7_status_classification (ahead behind : Nat) :
    (repoStatusClassify ahead behind = RepoStatus.Ahead ↔ ahead > 0 ∧ behind = 0)
    ∧ (repoStatusClassify ahead behind = RepoStatus.Behind ↔ behind > 0 ∧ ahead = 0)
    ∧ (repoStatusClassify ahead behind = RepoStatus.Same ↔ ahead = 0 ∧ behind = 0)
    ∧ (repoStatusClassify ahead behind = RepoStatus.Complex ↔ ahead > 0 ∧ behind > 0) := by
  unfold repoStatusClassify
  rcases Nat.eq_zero_or_pos ahead with ha | ha <;>
    rcases Nat.eq_zero_or_pos behind with hb | hb
  · simp [ha, hb]
  · simp [ha, hb, hb.ne']
  · simp [ha, hb, ha.ne']
  · simp [ha, hb, ha.ne', hb.ne']

/-! ## File backup (src/deploy.rs, `backup_file`)

Paths are modelled as their component lists (Rust `PathBuf`), the files on
disk as an association list from paths to contents; `fs::copy` is a lookup
of the source followed by a (shadowing) insertion at the destination, and
`create_dir_all` has no observable effect because directories are implicit
in the store. -/

abbrev RPath := List String

abbrev FileStore := List (RPath × String)

def storeGet : FileStore → RPath → Option String
  | [], _ => none
  | (q, c) :: rest, p => if q = p then some c else storeGet rest p

def storePut (fs : FileStore) (p : RPath) (c : String) : FileStore :=
  (p, c) :: fs

/-- `backup_file` (deploy.rs lines 486-518): resolve the parent directory
(`None` only for the empty path), ensure the sibling `.concierge-backup`
directory, copy the file to `<filename>-<timestamp>` inside it and return
the backup path. -/
def backupFile (fs : FileStore) (p : RPath) (ts : String) :
    Except String (FileStore × RPath) :=
  match p with
  | [] => .error "Failed to get parent dir"
  | _ :: _ =>
    let backupDir := p.dropLast ++ [".concierge-backup"]
    match p.getLast? with
    | none => .error "Failed to get filename"
    | some filename =>
      let backupFilePath := backupDir ++ [filename ++ "-" ++ ts]
      match storeGet fs p with
      | none => .error "Failed to copy file"
      | some content => .ok (storePut fs backupFilePath content, backupFilePath)

/-- Claim C10: when `Backup(f, t)` succeeds, the backup file sits in the
reserved sibling backup directory under the timestamped name, its content
equals `f`'s content at call time, and `f` itself still exists with its
content unmodified. -/
theorem c10_backup_fidelity (fs : FileStore) (p : RPath) (ts content : String)
    (hne : p ≠ []) (hp : storeGet fs p = some content) :
    ∃ fs' bp, backupFile fs p ts = Except.ok (fs', bp)
      ∧ bp = p.dropLast ++ [".concierge-backup"] ++ [p.getLast hne ++ "-" ++ ts]
      ∧ storeGet fs' bp = some content
      ∧ storeGet fs' p = some content := by
  cases p with
  | nil => exact absurd rfl hne
  | cons a rest =>
    have hlast : (a :: rest).getLast? = some ((a :: rest).getLast hne) :=
      List.getLast?_eq_getLast (a :: rest) hne
    refine ⟨storePut fs ((a :: rest).dropLast ++ [".concierge-backup"]
        ++ [(a :: rest).getLast hne ++ "-" ++ ts]) content,
      (a :: rest).dropLast ++ [".concierge-backup"]
        ++ [(a :: rest).getLast hne ++ "-" ++ ts], ?_, rfl, ?_, ?_⟩
    · simp only [backupFile, hlast, hp]
    · simp [storePut, storeGet]
    · simp only [storePut, storeGet]
      split
      · rfl
      · exact hp

/-- Concrete instance of C10: backing up `home/flake.nix`. -/
theorem c10_witness :
    ∃ fs' bp,
      backupFile [(["home", "flake.nix"], "flake body")] ["home", "flake.nix"]
          "2023-06-16T11:12:00+10:00" = Except.ok (fs', bp)
      ∧ bp = (["home", "flake.nix"] : RPath).dropLast
          ++ [".concierge-backup"]
          ++ [(["home", "flake.nix"] : RPath).getLast (by decide) ++ "-"
                ++ "2023-06-16T11:12:00+10:00"]
      ∧ storeGet fs' bp = some "flake body"
      ∧ storeGet fs' ["home", "flake.nix"] = some "flake body" :=
  c10_backup_fidelity [(["home", "flake.nix"], "flake body")] ["home", "flake.nix"]
    "2023-06-16T11:12:00+10:00" "flake body" (by decide) (by decide)

/-! ## Git URL normalization (src/git.rs, `normalize_git_url`)

`normalize_git_url` calls the external crate `git_url_parse::normalize_url`
to resolve the transport, then reads the host and the path of the resulting
URL and builds `host/path` with `.git` suffixes and leading slashes
stripped from the path.  URLs are character sequences here. -/

/-- Split a character sequence at the first occurrence of `c`; `none` when
`c` does not occur. -/
def splitFirst (c : Char) : List Char → Option (List Char × List Char)
  | [] => none
  | x :: xs =>
    if x = c then some ([], xs)
    else
      match splitFirst c xs with
      | none => none
      | some (a, b) => some (x :: a, b)

/-- Modelled from the spec: the external `git_url_parse::normalize_url`
(not part of this repository) unifies the SSH and HTTPS transports.  Per
the spec's two forms, an `https://host/path` URL yields host = the text up
to the first `/` after the scheme and path = `/` and the rest, and an
scp-like `git@host:path` URL yields host = the text between `@` and `:`
and path = `/` and the text after the `:`. -/
def parseGitUrl (url : List Char) : Option (List Char × List Char) :=
  if "https://".data.isPrefixOf url then
    match splitFirst '/' (url.drop 8) with
    | some (host, path) => some (host, '/' :: path)
    | none => some (url.drop 8, [])
  else
    match splitFirst '@' url with
    | none => none
    | some (_, rest) =>
      match splitFirst ':' rest with
      | none => none
      | some (host, path) => some (host, '/' :: path)

/-- Rust's `str::trim_end_matches`: remove the suffix as often as it
matches.  The fuel argument (instantiated with the length) only serves
structural termination; each removal shortens the list. -/
def trimEndMatchesAux (pat : List Char) : Nat → List Char → List Char
  | 0, l => l
  | Nat.succ n, l =>
    if pat.isSuffixOf l then trimEndMatchesAux pat n (l.take (l.length - pat.length))
    else l

def trimEndMatches (pat l : List Char) : List Char :=
  trimEndMatchesAux pat l.length l

/-- Rust's `str::trim_start_matches("/")`: drop every leading slash. -/
def trimStartSlashes (l : List Char) : List Char :=
  l.dropWhile (fun c => c = '/')

/-- The suffix `trim_end_matches` strips from the URL path. -/
def gitSuffix : List Char := ".git".data

/-- `normalize_git_url` (git.rs lines 14-26): `host/path` with the path
stripped of `.git` suffixes and leading slashes. -/
def normalizeGitUrl (url : List Char) : Option (List Char) :=
  match parseGitUrl url with
  | none => none
  | some (host, path) =>
    some (host ++ '/' :: trimStartSlashes (trimEndMatches gitSuffix path))

/-- `is_same_repo` (git.rs lines 28-33). -/
def isSameRepo (a b : List Char) : Bool :=
  normalizeGitUrl a == normalizeGitUrl b

/-- `repo_has_remote` (git.rs lines 35-41), with the repository's stored
remote URLs (what `get_repo_remote_urls` reads from git metadata) passed as
input: true iff any configured remote is the same repository. -/
def repoHasRemote (remotes : List (List Char)) (remoteUrl : List Char) : Bool :=
  remotes.any (fun r => isSameRepo r remoteUrl)

theorem splitFirst_append (c : Char) (l1 l2 : List Char) (h : c ∉ l1) :
    splitFirst c (l1 ++ c :: l2) = some (l1, l2) := by
  induction l1 with
  | nil => simp [splitFirst]
  | cons x xs ih =>
    have hx : x ≠ c := fun hx => h (hx ▸ List.mem_cons_self x xs)
    have hxs : c ∉ xs := fun hm => h (List.mem_cons_of_mem x hm)
    simp only [List.cons_append, splitFirst, List.append_eq]
    rw [ih hxs]
    simp [hx]

theorem trimEndMatchesAux_of_not_suffix (pat : List Char) (n : Nat) (l : List Char)
    (h : pat.isSuffixOf l = false) : trimEndMatchesAux pat n l = l := by
  cases n with
  | zero => rfl
  | succ m => simp [trimEndMatchesAux, h]

theorem trimEndMatchesAux_step (pat : List Char) (n : Nat) (l : List Char) :
    trimEndMatchesAux pat (n + 1) (l ++ pat)
      = trimEndMatchesAux pat n l := by
  have hsuf : pat.isSuffixOf (l ++ pat) = true :=
    List.isSuffixOf_iff_suffix.mpr (List.suffix_append l pat)
  have hlen : (l ++ pat).length - pat.length = l.length := by
    simp [List.length_append]
  simp [trimEndMatchesAux, hsuf, hlen, List.take_left]

theorem trimStartSlashes_no_lead (l : List Char) (h : l.head? ≠ some '/') :
    trimStartSlashes l = l := by
  cases l with
  | nil => rfl
  | cons x xs =>
    have hx : x ≠ '/' := by
      intro hx
      exact h (by simp [hx])
    simp [trimStartSlashes, List.dropWhile_cons, hx]

theorem isPrefixOf_cons_ne (a b : Char) (as bs : List Char) (h : (a == b) = false) :
    (a :: as).isPrefixOf (b :: bs) = false := by
  simp only [List.isPrefixOf, h, Bool.false_and]

theorem trimEndMatches_of_not_suffix (pat l : List Char)
    (h : pat.isSuffixOf l = false) : trimEndMatches pat l = l :=
  trimEndMatchesAux_of_not_suffix pat l.length l h

theorem trimEndMatches_append_once (pat l : List Char) (hp : pat ≠ [])
    (h : pat.isSuffixOf l = false) :
    trimEndMatches pat (l ++ pat) = l := by
  unfold trimEndMatches
  cases pat with
  | nil => exact absurd rfl hp
  | cons c cs =>
    have hlen : (l ++ c :: cs).length = (l.length + cs.length) + 1 := by
      simp [List.length_append]
      omega
    rw [hlen, trimEndMatchesAux_step]
    exact trimEndMatchesAux_of_not_suffix _ _ _ h

/-- Claim C9 (the transport resolution of the external crate
`git_url_parse` is modelled from the spec, see `parseGitUrl`): the SSH
form `git@host:path.git` and the HTTPS form `https://host/path` of the
same repository normalize to the identical canonical string `host/path`,
and `repo_has_remote` reports a match under either form of the candidate
URL.  The hypotheses say that `host` and `path` are well formed: the host
contains no `:` or `/`, the path does not itself end in `.git` and does
not start with a slash. -/
theorem c9_url_normalization (host p : List Char)
    (hcolon : ':' ∉ host) (hslash : '/' ∉ host)
    (hgit : gitSuffix.isSuffixOf ('/' :: p) = false)
    (hhead : p.head? ≠ some '/') :
    normalizeGitUrl ("git@".data ++ host ++ ':' :: (p ++ gitSuffix))
        = some (host ++ '/' :: p)
    ∧ normalizeGitUrl ("https://".data ++ host ++ '/' :: p)
        = some (host ++ '/' :: p)
    ∧ repoHasRemote ["git@".data ++ host ++ ':' :: (p ++ gitSuffix)]
        ("https://".data ++ host ++ '/' :: p) = true
    ∧ repoHasRemote ["https://".data ++ host ++ '/' :: p]
        ("git@".data ++ host ++ ':' :: (p ++ gitSuffix)) = true := by
  have hstep : trimStartSlashes ('/' :: p) = trimStartSlashes p := by
    simp [trimStartSlashes, List.dropWhile_cons]
  have htrim : trimStartSlashes (trimEndMatches gitSuffix ('/' :: (p ++ gitSuffix)))
      = p := by
    have hcons : ('/' :: (p ++ gitSuffix)) = ('/' :: p) ++ gitSuffix := rfl
    rw [hcons, trimEndMatches_append_once gitSuffix ('/' :: p) (by decide) hgit,
      hstep, trimStartSlashes_no_lead p hhead]
  have htrim2 : trimStartSlashes (trimEndMatches gitSuffix ('/' :: p)) = p := by
    rw [trimEndMatches_of_not_suffix gitSuffix ('/' :: p) hgit, hstep,
      trimStartSlashes_no_lead p hhead]
  have hssh : normalizeGitUrl ("git@".data ++ host ++ ':' :: (p ++ gitSuffix))
      = some (host ++ '/' :: p) := by
    have hurl : ("git@".data ++ host ++ ':' :: (p ++ gitSuffix))
        = "git".data ++ '@' :: (host ++ ':' :: (p ++ gitSuffix)) := by
      have h1 : "git@".data = "git".data ++ ['@'] := by decide
      rw [h1]
      simp [List.append_assoc]
    have hpre : "https://".data.isPrefixOf
        ("git".data ++ '@' :: (host ++ ':' :: (p ++ gitSuffix))) = false := by
      have h2 : "https://".data = 'h' :: "ttps://".data := by decide
      have h3 : ("git".data ++ '@' :: (host ++ ':' :: (p ++ gitSuffix)))
          = 'g' :: ("it".data ++ '@' :: (host ++ ':' :: (p ++ gitSuffix))) := rfl
      rw [h2, h3]
      exact isPrefixOf_cons_ne 'h' 'g' _ _ (by decide)
    have hparse : parseGitUrl ("git@".data ++ host ++ ':' :: (p ++ gitSuffix))
        = some (host, '/' :: (p ++ gitSuffix)) := by
      rw [hurl]
      unfold parseGitUrl
      rw [hpre]
      simp only [Bool.false_eq_true, if_false]
      rw [splitFirst_append '@' "git".data (host ++ ':' :: (p ++ gitSuffix)) (by decide)]
      show (match splitFirst ':' (host ++ ':' :: (p ++ gitSuffix)) with
        | none => none
        | some (host, path) => some (host, '/' :: path))
          = some (host, '/' :: (p ++ gitSuffix))
      rw [splitFirst_append ':' host (p ++ gitSuffix) hcolon]
    unfold normalizeGitUrl
    rw [hparse]
    show some (host ++ '/' :: trimStartSlashes
        (trimEndMatches gitSuffix ('/' :: (p ++ gitSuffix)))) = _
    rw [htrim]
  have hhttps : normalizeGitUrl ("https://".data ++ host ++ '/' :: p)
      = some (host ++ '/' :: p) := by
    have hpre : "https://".data.isPrefixOf
        ("https://".data ++ host ++ '/' :: p) = true := by
      rw [List.append_assoc]
      exact List.isPrefixOf_iff_prefix.mpr (List.prefix_append _ _)
    have hdrop : ("https://".data ++ host ++ '/' :: p).drop 8 = host ++ '/' :: p := by
      rw [List.append_assoc]
      have h8 : ("https://".data).length = 8 := by decide
      rw [← h8, List.drop_left]
    have hparse : parseGitUrl ("https://".data ++ host ++ '/' :: p)
        = some (host, '/' :: p) := by
      unfold parseGitUrl
      rw [hpre]
      rw [if_pos rfl]
      rw [hdrop]
      rw [splitFirst_append '/' host p hslash]
    unfold normalizeGitUrl
    rw [hparse]
    show some (host ++ '/' :: trimStartSlashes
        (trimEndMatches gitSuffix ('/' :: p))) = _
    rw [htrim2]
  refine ⟨hssh, hhttps, ?_, ?_⟩
  · unfold repoHasRemote
    simp only [List.any_cons, List.any_nil, Bool.or_false]
    unfold isSameRepo
    rw [hssh, hhttps]
    exact beq_self_eq_true _
  · unfold repoHasRemote
    simp only [List.any_cons, List.any_nil, Bool.or_false]
    unfold isSameRepo
    rw [hssh, hhttps]
    exact beq_self_eq_true _

/-- Concrete instance of C9 at `github.com/username/repo`, the example of
the source's own doc comment and tests. -/
theorem c9_witness :
    normalizeGitUrl ("git@".data ++ "github.com".data
          ++ ':' :: ("username/repo".data ++ gitSuffix))
        = some ("github.com".data ++ '/' :: "username/repo".data)
    ∧ normalizeGitUrl ("https://".data ++ "github.com".data
          ++ '/' :: "username/repo".data)
        = some ("github.com".data ++ '/' :: "username/repo".data)
    ∧ repoHasRemote ["git@".data ++ "github.com".data
          ++ ':' :: ("username/repo".data ++ gitSuffix)]
        ("https://".data ++ "github.com".data ++ '/' :: "username/repo".data) = true
    ∧ repoHasRemote ["https://".data ++ "github.com".data
          ++ '/' :: "username/repo".data]
        ("git@".data ++ "github.com".data
          ++ ':' :: ("username/repo".data ++ gitSuffix)) = true :=
  c9_url_normalization "github.com".data "username/repo".data
    (by decide) (by decide) (by decide) (by decide)

/-! ## Deployment settings (src/settings.rs, src/main.rs)

The operating system as `os_version::detect` reports it, reduced to what
the code inspects: a Linux distribution name, macOS, or anything else. -/

inductive OS where
  | linux (distro : String)
  | macos
  | other
  deriving DecidableEq

/-- The settings record.  `settings.rs` declares the first six fields;
`deploy.rs` additionally reads `fallback` and `update_input` (and its
tests construct the record with both), so the record carries all eight. -/
structure Settings where
  force_evaluation : Bool
  update : Bool
  show_trace : Bool
  config_path : String
  install_path : String
  sync_exclusions : List String
  fallback : Bool
  update_input : Option String
  deriving DecidableEq

/-- `Settings::new` (settings.rs lines 17-36): config path under the home
directory (the tilde expansion is the `home` argument), install path by
OS, the four default exclusions, every flag off.  Modelled from the spec:
`fallback` and `update_input` start as false/none (settings.rs's
constructor predates these fields; the spec lists them among the flags
constructed from CLI flags). -/
def Settings.new (os : OS) (home : String) : Settings where
  force_evaluation := false
  update := false
  show_trace := false
  config_path := home ++ "/.config/nix"
  install_path :=
    match os with
    | OS.linux d => if d = "nixos" then "/etc/nixos" else "/etc/nix-config"
    | _ => "/etc/nix-config"
  sync_exclusions := [".gitignore", ".stfolder", ".git", ".concierge-backup"]
  fallback := false
  update_input := none

/-- Setter `force_evaluation` (settings.rs lines 38-40). -/
def Settings.forceEvaluationSet (s : Settings) : Settings :=
  { s with force_evaluation := true }

/-- Setter `update` (settings.rs lines 42-44). -/
def Settings.updateSet (s : Settings) : Settings :=
  { s with update := true }

/-- Setter `show_trace` (settings.rs lines 46-48). -/
def Settings.showTraceSet (s : Settings) : Settings :=
  { s with show_trace := true }

/-- The setter main.rs calls as `settings.fallback()`.  Modelled from the
spec (settings.rs declares no such setter): it sets the fallback flag. -/
def Settings.fallbackSet (s : Settings) : Settings :=
  { s with fallback := true }

/-- `Settings::flake_file` (settings.rs lines 50-52). -/
def Settings.flakeFile (s : Settings) : String :=
  s.config_path ++ "/" ++ "flake.nix"

/-- The CLI flags (main.rs lines 17-39). -/
structure Args where
  force_eval : Bool
  update : Bool
  fallback : Bool
  show_trace : Bool
  update_input : Option String
  deriving DecidableEq

/-- The flag application of `main` (main.rs lines 53-67): after
`Settings::new` returns, each given CLI flag mutates the record through
its setter, in this order.  `args.update_input` is never copied into the
settings. -/
def applyFlags (args : Args) (s : Settings) : Settings :=
  let s := if args.force_eval then s.forceEvaluationSet else s
  let s := if args.update then s.updateSet else s
  let s := if args.fallback then s.fallbackSet else s
  let s := if args.show_trace then s.showTraceSet else s
  s

/-! ## The deployment orchestrator (src/deploy.rs, `deploy_nix_configuration`)

The orchestrator's side effects are recorded as a trace of events; the
filesystem and the outcomes of the child processes it spawns are answered
by a `World` oracle.  Child processes are numbered in spawn order and the
oracle assigns each an outcome, so any step can be made to fail. -/

/-- What `Command::spawn` + `wait` report for one child process:
an exit code, termination by a signal (no code), or a spawn failure. -/
inductive CmdOutcome where
  | exit (code : Int)
  | signal
  | spawnFail
  deriving DecidableEq

/-- One observable side effect of the orchestrator: a file backup, a file
tagging, or an external command (with its working directory when
`realtime_command_in_dir` is used, `none` for `realtime_command`). -/
inductive Event where
  | backup (path : String) (ts : String)
  | tag (path : String) (ts : String)
  | run (cmd : String) (args : List String) (dir : Option String)
  deriving DecidableEq

/-- The running state: the trace so far and the number of child processes
spawned so far. -/
structure TrSt where
  trace : List Event
  next : Nat
  deriving DecidableEq

/-- The error cases of `deploy_nix_configuration` and its helpers (the
eyre context strings are dropped; the process errors keep the command and
arguments the source formats into the message). -/
inductive DErr where
  | osDetectFailed
  | missingFlake (configPath : String)
  | backupFailed
  | tagFailed (path : String)
  | searchFailed
  | dirNameFailed (path : String)
  | emptyCommandVec
  | procSpawn (cmd : String) (args : List String)
  | procExit (cmd : String) (args : List String) (code : Int)
  | procSignal (cmd : String) (args : List String)
  | unsupportedOS
  deriving DecidableEq

/-- One `docker-compose.yml` file found under `systems/<hostname>`:
its path, its `path.parent()`, that directory's `file_name()`, and the
contents of the directory's `.compose2nix` file when one exists. -/
structure ComposeItem where
  path : String
  parent : Option String
  dirName : Option String
  c2n : Option String
  deriving DecidableEq

/-- The oracle answering the orchestrator's environment queries:
OS detection, the two `Local::now()` calls, the `flake.nix` existence
check, whether backing up / tagging a given file fails, the results of
`search_files_with_name` per searched root (`searchCompose` for the
`docker-compose.yml` search that drives the converter, `searchFiles` for
the plain path list the update-tag loop walks), and the outcome of the
n-th spawned child process. -/
structure World where
  osDetect : Option OS
  deploymentTime : String
  backupTime : String
  flakeExists : Bool
  backupFails : Bool
  tagFails : String → Bool
  searchCompose : String → Option (List ComposeItem)
  searchFiles : String → Option (List String)
  cmdOutcome : Nat → CmdOutcome

/-- `realtime_command` / `realtime_command_in_dir` (deploy.rs lines
328-435): spawn, wait, exit code 0 is success, a nonzero code / a signal /
a spawn failure is an error naming the command and arguments.  The
invocation is recorded in the trace and consumes one process number. -/
def runCmdStep (w : World) (cmd : String) (args : List String)
    (dir : Option String) (st : TrSt) : TrSt × Option DErr :=
  let st' : TrSt := ⟨st.trace ++ [Event.run cmd args dir], st.next + 1⟩
  match w.cmdOutcome st.next with
  | CmdOutcome.exit c => if c = 0 then (st', none) else (st', some (DErr.procExit cmd args c))
  | CmdOutcome.signal => (st', some (DErr.procSignal cmd args))
  | CmdOutcome.spawnFail => (st', some (DErr.procSpawn cmd args))

/-- The `?` chaining: run the next step only when the previous one
succeeded, else return its state and error unchanged. -/
def andThen (r : TrSt × Option DErr) (f : TrSt → TrSt × Option DErr) :
    TrSt × Option DErr :=
  match r with
  | (st, none) => f st
  | (st, some e) => (st, some e)

/-- The `--exclude='…'` list of the `rsync` helper (deploy.rs lines
177-181). -/
def exclusionsString (exclusions : List String) : String :=
  exclusions.foldl (fun acc item => acc ++ " --exclude=" ++ ("'" ++ item ++ "'")) ""

/-- The extra-parameter list of the `rsync` helper (deploy.rs lines
183-187). -/
def extraParamsString (params : List String) : String :=
  params.foldl (fun acc item => acc ++ " " ++ item) ""

/-- The shell command the `rsync` helper formats (deploy.rs lines
189-196): `rsync <params> <exclusions> <source>/ <destination>/`,
prefixed with `sudo` when requested. -/
def rsyncCommandString (source destination : String)
    (exclusions params : List String) (elevated : Bool) : String :=
  let cmd := "rsync " ++ extraParamsString params ++ " " ++ exclusionsString exclusions
      ++ " " ++ source ++ "/ " ++ destination ++ "/"
  if elevated then "sudo " ++ cmd else cmd

/-- The `rsync` helper (deploy.rs lines 158-205): it runs the formatted
command through `nix-shell -p rsync --run <command>`. -/
def rsyncStep (w : World) (source destination : String)
    (exclusions params : List String) (elevated : Bool) (st : TrSt) :
    TrSt × Option DErr :=
  runCmdStep w "nix-shell"
    ["-p", "rsync", "--run", rsyncCommandString source destination exclusions params elevated]
    none st

/-- Rust's `str::split_whitespace`, used on the `.compose2nix` contents. -/
def splitWhitespaceAux : List Char → List Char → List (List Char)
  | cur, [] => if cur = [] then [] else [cur.reverse]
  | cur, c :: rest =>
    if c.isWhitespace then
      if cur = [] then splitWhitespaceAux [] rest
      else cur.reverse :: splitWhitespaceAux [] rest
    else splitWhitespaceAux (c :: cur) rest

def splitWhitespace (s : String) : List String :=
  (splitWhitespaceAux [] s.data).map (fun cs => String.mk cs)

/-- The per-directory loop of `build_docker_compose_yml` (deploy.rs lines
227-279).  A file whose `parent()` is `None` is skipped; a directory whose
name cannot be read is an error; a directory with a non-empty
`.compose2nix` runs that custom command and then the source's
`return Ok(())` ends the whole loop — the remaining directories are not
processed; otherwise the default `compose2nix -project <name>` runs and
the loop continues. -/
def composeConvertLoop (w : World) : List ComposeItem → TrSt → TrSt × Option DErr
  | [], st => (st, none)
  | item :: rest, st =>
    match item.parent with
    | none => composeConvertLoop w rest st
    | some dir =>
      match item.dirName with
      | none => (st, some (DErr.dirNameFailed item.path))
      | some name =>
        match item.c2n with
        | some contents =>
          match splitWhitespace contents with
          | cmd :: params => runCmdStep w cmd params (some dir) st
          | [] =>
            andThen (runCmdStep w "compose2nix" ["-project", name] (some dir) st)
              (fun st' => composeConvertLoop w rest st')
        | none =>
          andThen (runCmdStep w "compose2nix" ["-project", name] (some dir) st)
            (fun st' => composeConvertLoop w rest st')

/-- `build_docker_compose_yml` (deploy.rs lines 208-284): search
`<config>/systems/<hostname>` for `docker-compose.yml` files; none found
is success; otherwise convert them. -/
def buildDockerComposeYml (w : World) (root : String) (st : TrSt) :
    TrSt × Option DErr :=
  match w.searchCompose root with
  | none => (st, some DErr.searchFailed)
  | some files =>
    if files.length = 0 then (st, none)
    else composeConvertLoop w files st

/-- The update-tag loop (deploy.rs lines 56-60): tag every found file,
stopping at the first failure. -/
def tagAllStep (w : World) (dt : String) : List String → TrSt → TrSt × Option DErr
  | [], st => (st, none)
  | f :: rest, st =>
    if w.tagFails f then (st, some (DErr.tagFailed f))
    else tagAllStep w dt rest ⟨st.trace ++ [Event.tag f dt], st.next⟩

/-- The force-evaluation step (deploy.rs lines 39-48): back up
`flake.nix` (with a fresh `Local::now()` timestamp), then tag it with the
deployment time. -/
def forceEvalStep (s : Settings) (w : World) (st : TrSt) : TrSt × Option DErr :=
  if s.force_evaluation then
    if w.backupFails then (st, some DErr.backupFailed)
    else
      let st1 : TrSt := ⟨st.trace ++ [Event.backup s.flakeFile w.backupTime], st.next⟩
      if w.tagFails s.flakeFile then (st1, some (DErr.tagFailed s.flakeFile))
      else (⟨st1.trace ++ [Event.tag s.flakeFile w.deploymentTime], st1.next⟩, none)
  else (st, none)

/-- The update-tag step (deploy.rs lines 56-60): when `update` is set,
search the whole config path and tag every `docker-compose.yml`. -/
def updateTagStep (s : Settings) (w : World) (st : TrSt) : TrSt × Option DErr :=
  if s.update then
    match w.searchFiles s.config_path with
    | none => (st, some DErr.searchFailed)
    | some files => tagAllStep w w.deploymentTime files st
  else (st, none)

/-- The input-pinning step (deploy.rs lines 62-69): when an update-input
name is given, run `nix flake lock --update-input <name>` in the config
directory.  The source drops the call's `Result` (no `?`), so the command
runs but its error — the prepared message "Error updating unput …"
notwithstanding — is discarded and this step always succeeds. -/
def updateInputStep (s : Settings) (w : World) (st : TrSt) : TrSt × Option DErr :=
  match s.update_input with
  | some name =>
    ((runCmdStep w "nix" ["flake", "lock", "--update-input", name]
        (some s.config_path) st).1, none)
  | none => (st, none)

/-- The additive parameter list of the config → install sync
(deploy.rs line 76). -/
def additiveSyncParams : List String := ["-ahi"]

/-- The parameter list of the lock-state sync-back (deploy.rs line 150):
archive + itemize + prune-empty-dirs with include filters for `*.lock`
files and directories. -/
def lockSyncParams : List String := ["-aim", "--include='*.lock'", "--include='*/'"]

/-- The config → install sync (deploy.rs lines 72-79): additive params,
the settings' exclusions, with sudo. -/
def syncStep (s : Settings) (w : World) (st : TrSt) : TrSt × Option DErr :=
  rsyncStep w s.config_path s.install_path s.sync_exclusions additiveSyncParams true st

/-- The `update_command` vector (deploy.rs lines 81-109): `sudo` on
everything but macOS, then `nix flake update`, `-vv` and `--show-trace`
when tracing, `--fallback` when requested, and the install path. -/
def updateCommandArgs (os : OS) (s : Settings) : List String :=
  (match os with
    | OS.macos => []
    | _ => ["sudo"])
    ++ ["nix", "flake", "update"]
    ++ (if s.show_trace then ["-vv"] else [])
    ++ (if s.fallback then ["--fallback"] else [])
    ++ (if s.show_trace then ["--show-trace"] else [])
    ++ [s.install_path]

/-- `realtime_command_vec` (deploy.rs lines 321-326): first element is
the command, the rest the arguments. -/
def realtimeCommandVec (w : World) (cmdArgs : List String) (st : TrSt) :
    TrSt × Option DErr :=
  match cmdArgs with
  | [] => (st, some DErr.emptyCommandVec)
  | cmd :: args => runCmdStep w cmd args none st

/-- The global-update step (deploy.rs lines 111-116): run the update
command only when `update` is set. -/
def globalUpdateStep (os : OS) (s : Settings) (w : World) (st : TrSt) :
    TrSt × Option DErr :=
  if s.update then realtimeCommandVec w (updateCommandArgs os s) st
  else (st, none)

/-- The build-and-apply dispatch (deploy.rs lines 118-143): NixOS runs
`sudo nixos-rebuild switch`, macOS runs
`darwin-rebuild switch --flake <install>`, anything else is fatal. -/
def buildStep (os : OS) (s : Settings) (w : World) (st : TrSt) :
    TrSt × Option DErr :=
  match os with
  | OS.linux d =>
    if d = "nixos" then runCmdStep w "sudo" ["nixos-rebuild", "switch"] none st
    else (st, some DErr.unsupportedOS)
  | OS.macos =>
    runCmdStep w "darwin-rebuild" ["switch", "--flake", s.install_path] none st
  | OS.other => (st, some DErr.unsupportedOS)

/-- The lock-state sync-back (deploy.rs lines 145-153): from the install
path back to the config path, excluding `*` but including `*.lock` files
and directories, with sudo. -/
def lockSyncStep (s : Settings) (w : World) (st : TrSt) : TrSt × Option DErr :=
  rsyncStep w s.install_path s.config_path ["*"] lockSyncParams true st

/-- The steps before the config → install sync, in source order:
force-evaluation backup/tag, `docker-compose.yml` conversion, the
update-tag loop, the input-pinning command. -/
def prepPhase (s : Settings) (hostname : String) (w : World) : TrSt × Option DErr :=
  andThen (forceEvalStep s w ⟨[], 0⟩) (fun st =>
  andThen (buildDockerComposeYml w (s.config_path ++ "/systems/" ++ hostname) st) (fun st =>
  andThen (updateTagStep s w st) (fun st =>
  updateInputStep s w st)))

/-- `deploy_nix_configuration` (deploy.rs lines 19-156): detect the OS,
require `flake.nix` at the source root, then run the preparation steps,
the config → install sync, the conditional global update, the OS-specific
build, and the lock-state sync-back, each propagating its first error. -/
def deployRun (s : Settings) (hostname : String) (w : World) : TrSt × Option DErr :=
  match w.osDetect with
  | none => (⟨[], 0⟩, some DErr.osDetectFailed)
  | some os =>
    if w.flakeExists then
      andThen (prepPhase s hostname w) (fun st =>
      andThen (syncStep s w st) (fun st =>
      andThen (globalUpdateStep os s w st) (fun st =>
      andThen (buildStep os s w st) (fun st =>
      lockSyncStep s w st))))
    else (⟨[], 0⟩, some (DErr.missingFlake s.config_path))

/-- The trace event of the config → install sync. -/
def syncEvt (s : Settings) : Event :=
  Event.run "nix-shell"
    ["-p", "rsync", "--run",
      rsyncCommandString s.config_path s.install_path s.sync_exclusions
        additiveSyncParams true] none

/-- The trace event of the lock-state sync-back. -/
def lockSyncEvt (s : Settings) : Event :=
  Event.run "nix-shell"
    ["-p", "rsync", "--run",
      rsyncCommandString s.install_path s.config_path ["*"] lockSyncParams true] none

/-- The trace event of the NixOS build. -/
def buildEvtNix : Event := Event.run "sudo" ["nixos-rebuild", "switch"] none

/-- The trace event of the macOS build. -/
def buildEvtDarwin (s : Settings) : Event :=
  Event.run "darwin-rebuild" ["switch", "--flake", s.install_path] none

/-- The trace event of the global-update command. -/
def globalUpdateEvt (os : OS) (s : Settings) : Event :=
  match updateCommandArgs os s with
  | cmd :: args => Event.run cmd args none
  | [] => Event.run "" [] none

/-! ### Basic step lemmas -/

theorem runCmdStep_fst (w : World) (cmd : String) (args : List String)
    (dir : Option String) (st : TrSt) :
    (runCmdStep w cmd args dir st).1
      = ⟨st.trace ++ [Event.run cmd args dir], st.next + 1⟩ := by
  unfold runCmdStep
  cases w.cmdOutcome st.next with
  | exit c =>
    by_cases hc : c = 0 <;> simp [hc]
  | signal => rfl
  | spawnFail => rfl

theorem runCmdStep_ok (w : World) (cmd : String) (args : List String)
    (dir : Option String) (st : TrSt)
    (h : w.cmdOutcome st.next = CmdOutcome.exit 0) :
    runCmdStep w cmd args dir st
      = (⟨st.trace ++ [Event.run cmd args dir], st.next + 1⟩, none) := by
  unfold runCmdStep
  rw [h]
  simp

theorem andThen_ok (st : TrSt) (f : TrSt → TrSt × Option DErr) :
    andThen (st, none) f = f st := rfl

theorem andThen_err (st : TrSt) (e : DErr) (f : TrSt → TrSt × Option DErr) :
    andThen (st, some e) f = (st, some e) := rfl

theorem andThen_trace_mem (r : TrSt × Option DErr) (f : TrSt → TrSt × Option DErr)
    (e : Event) (he : e ∈ (andThen r f).1.trace) :
    e ∈ (f r.1).1.trace ∨ e ∈ r.1.trace := by
  rcases r with ⟨st, e?⟩
  cases e? with
  | none => exact Or.inl he
  | some err => exact Or.inr he

/-! ### The two rsync invocations are distinct commands -/

theorem rsyncCommandString_sudo (a b : String) (excl ps : List String) :
    rsyncCommandString a b excl ps true
      = "sudo " ++ ("rsync " ++ extraParamsString ps ++ " " ++ exclusionsString excl
          ++ " " ++ a ++ "/ " ++ b ++ "/") := rfl

/-- The additive config → install command and the lock-state sync-back
command differ at character 14 (`-ahi` against `-aim …`), whatever the
paths and exclusions are. -/
theorem syncCmd_ne_lockCmd (a b c d : String) (excl : List String) :
    rsyncCommandString a b excl additiveSyncParams true
      ≠ rsyncCommandString c d ["*"] lockSyncParams true := by
  intro h
  have h1 : (rsyncCommandString a b excl additiveSyncParams true).data.get? 14
      = some 'h' := by
    rw [rsyncCommandString_sudo]
    simp only [String.data_append, List.append_assoc]
    rfl
  have h2 : (rsyncCommandString c d ["*"] lockSyncParams true).data.get? 14
      = some 'i' := by
    rw [rsyncCommandString_sudo]
    simp only [String.data_append, List.append_assoc]
    rfl
  rw [h, h2] at h1
  exact absurd h1 (by decide)

theorem syncEvt_ne_lockSyncEvt (s s' : Settings) : syncEvt s ≠ lockSyncEvt s' := by
  intro h
  unfold syncEvt lockSyncEvt at h
  have h4 := congrArg (fun e : Event =>
    match e with
    | Event.run _ args _ => args.get? 3
    | _ => none) h
  simp only [List.get?] at h4
  exact syncCmd_ne_lockCmd s.config_path s.install_path s'.install_path s'.config_path
    s.sync_exclusions (Option.some.inj h4)

/-! ### What kinds of events each preparation step can add -/

/-- Events the preparation phase can produce before the sync: backups,
tags, and commands with a working directory.  The sync, global-update,
build and lock-sync events all run without a working directory and are
not of this kind. -/
def preEvt : Event → Prop
  | Event.run _ _ none => False
  | _ => True

/-- A command event with a working directory (what the preparation phase
adds when neither tagging flag is set). -/
def isDirRun : Event → Prop
  | Event.run _ _ (some _) => True
  | _ => False

theorem forceEval_mem (s : Settings) (w : World) (st : TrSt) (e : Event)
    (he : e ∈ (forceEvalStep s w st).1.trace) :
    e ∈ st.trace
    ∨ (s.force_evaluation = true ∧ (∃ p ts, e = Event.backup p ts ∨ e = Event.tag p ts)) := by
  unfold forceEvalStep at he
  by_cases hf : s.force_evaluation
  · rw [if_pos hf] at he
    by_cases hb : w.backupFails
    · rw [if_pos hb] at he
      exact Or.inl he
    · rw [if_neg hb] at he
      by_cases ht : w.tagFails s.flakeFile
      · rw [if_pos ht] at he
        simp only at he
        rcases List.mem_append.mp he with h1 | h1
        · exact Or.inl h1
        · simp at h1
          exact Or.inr ⟨hf, _, _, Or.inl h1⟩
      · rw [if_neg ht] at he
        simp only at he
        rcases List.mem_append.mp he with h1 | h1
        · rcases List.mem_append.mp h1 with h2 | h2
          · exact Or.inl h2
          · simp at h2
            exact Or.inr ⟨hf, _, _, Or.inl h2⟩
        · simp at h1
          exact Or.inr ⟨hf, _, _, Or.inr h1⟩
  · rw [if_neg hf] at he
    exact Or.inl he

theorem tagAll_mem (w : World) (dt : String) :
    ∀ (files : List String) (st : TrSt) (e : Event),
      e ∈ (tagAllStep w dt files st).1.trace →
      e ∈ st.trace ∨ ∃ p ts, e = Event.tag p ts := by
  intro files
  induction files with
  | nil => intro st e he; exact Or.inl he
  | cons f rest ih =>
    intro st e he
    unfold tagAllStep at he
    by_cases ht : w.tagFails f
    · rw [if_pos ht] at he
      exact Or.inl he
    · rw [if_neg ht] at he
      rcases ih _ e he with h1 | h1
      · simp only at h1
        rcases List.mem_append.mp h1 with h2 | h2
        · exact Or.inl h2
        · simp at h2
          exact Or.inr ⟨_, _, h2⟩
      · exact Or.inr h1

theorem updateTag_mem (s : Settings) (w : World) (st : TrSt) (e : Event)
    (he : e ∈ (updateTagStep s w st).1.trace) :
    e ∈ st.trace ∨ (s.update = true ∧ ∃ p ts, e = Event.tag p ts) := by
  unfold updateTagStep at he
  by_cases hu : s.update
  · rw [if_pos hu] at he
    cases hs : w.searchFiles s.config_path with
    | none => rw [hs] at he; exact Or.inl he
    | some files =>
      rw [hs] at he
      rcases tagAll_mem w w.deploymentTime files st e he with h1 | h1
      · exact Or.inl h1
      · exact Or.inr ⟨hu, h1⟩
  · rw [if_neg hu] at he
    exact Or.inl he

theorem updateInput_mem (s : Settings) (w : World) (st : TrSt) (e : Event)
    (he : e ∈ (updateInputStep s w st).1.trace) :
    e ∈ st.trace ∨ ∃ cmd args d, e = Event.run cmd args (some d) := by
  unfold updateInputStep at he
  cases hn : s.update_input with
  | none => rw [hn] at he; exact Or.inl he
  | some name =>
    rw [hn] at he
    rw [runCmdStep_fst] at he
    simp only at he
    rcases List.mem_append.mp he with h1 | h1
    · exact Or.inl h1
    · simp at h1
      exact Or.inr ⟨_, _, _, h1⟩

theorem composeLoop_mem (w : World) :
    ∀ (items : List ComposeItem) (st : TrSt) (e : Event),
      e ∈ (composeConvertLoop w items st).1.trace →
      e ∈ st.trace ∨ ∃ cmd args d, e = Event.run cmd args (some d) := by
  intro items
  induction items with
  | nil => intro st e he; exact Or.inl he
  | cons item rest ih =>
    intro st e he
    obtain ⟨ipath, ipar, idn, ic2n⟩ := item
    cases ipar with
    | none => exact ih st e he
    | some dir =>
      cases idn with
      | none => exact Or.inl he
      | some name =>
        have hrunmem : ∀ cmd args (st0 : TrSt),
            e ∈ (runCmdStep w cmd args (some dir) st0).1.trace →
            e ∈ st0.trace ∨ ∃ c a d, e = Event.run c a (some d) := by
          intro cmd args st0 hm
          rw [runCmdStep_fst] at hm
          simp only at hm
          rcases List.mem_append.mp hm with h1 | h1
          · exact Or.inl h1
          · simp at h1
            exact Or.inr ⟨_, _, _, h1⟩
        cases ic2n with
        | some contents =>
          have he' : e ∈ (match splitWhitespace contents with
              | cmd :: params => runCmdStep w cmd params (some dir) st
              | [] =>
                andThen (runCmdStep w "compose2nix" ["-project", name] (some dir) st)
                  (fun st' => composeConvertLoop w rest st')).1.trace := he
          cases hsw : splitWhitespace contents with
          | cons cmd params =>
            rw [hsw] at he'
            exact hrunmem cmd params st he'
          | nil =>
            rw [hsw] at he'
            rcases andThen_trace_mem
                (runCmdStep w "compose2nix" ["-project", name] (some dir) st)
                (fun st' => composeConvertLoop w rest st') e he' with h1 | h1
            · rcases ih _ e h1 with h2 | h2
              · exact hrunmem _ _ st h2
              · exact Or.inr h2
            · exact hrunmem _ _ st h1
        | none =>
          rcases andThen_trace_mem
              (runCmdStep w "compose2nix" ["-project", name] (some dir) st)
              (fun st' => composeConvertLoop w rest st') e he with h1 | h1
          · rcases ih _ e h1 with h2 | h2
            · exact hrunmem _ _ st h2
            · exact Or.inr h2
          · exact hrunmem _ _ st h1

theorem bdc_mem (w : World) (root : String) (st : TrSt) (e : Event)
    (he : e ∈ (buildDockerComposeYml w root st).1.trace) :
    e ∈ st.trace ∨ ∃ cmd args d, e = Event.run cmd args (some d) := by
  unfold buildDockerComposeYml at he
  cases hs : w.searchCompose root with
  | none => rw [hs] at he; exact Or.inl he
  | some files =>
    rw [hs] at he
    have he' : e ∈ (if files.length = 0 then (st, none)
        else composeConvertLoop w files st).1.trace := he
    by_cases hl : files.length = 0
    · rw [if_pos hl] at he'; exact Or.inl he'
    · rw [if_neg hl] at he'
      exact composeLoop_mem w files st e he'

/-- Every event the preparation phase leaves in the trace is a backup (only
when force-evaluation is on), a tag (only when force-evaluation or update
is on), or a command run in a working directory. -/
theorem prepPhase_trace_pres (s : Settings) (hostname : String) (w : World)
    (P : Event → Prop)
    (hPb : s.force_evaluation = true → ∀ p ts, P (Event.backup p ts))
    (hPt : s.force_evaluation = true ∨ s.update = true → ∀ p ts, P (Event.tag p ts))
    (hPr : ∀ cmd args d, P (Event.run cmd args (some d))) :
    ∀ e ∈ (prepPhase s hostname w).1.trace, P e := by
  intro e he
  unfold prepPhase at he
  rcases andThen_trace_mem _ _ e he with h1 | h1
  · rcases andThen_trace_mem _ _ e h1 with h2 | h2
    · rcases andThen_trace_mem _ _ e h2 with h3 | h3
      · rcases updateInput_mem s w _ e h3 with h4 | ⟨c, a, d, h4⟩
        · rcases updateTag_mem s w _ e h4 with h5 | ⟨hu, p, ts, h5⟩
          · rcases bdc_mem w _ _ e h5 with h6 | ⟨c, a, d, h6⟩
            · rcases forceEval_mem s w _ e h6 with h7 | ⟨hf, p, ts, h7⟩
              · simp at h7
              · rcases h7 with h7 | h7
                · exact h7 ▸ hPb hf p ts
                · exact h7 ▸ hPt (Or.inl hf) p ts
            · exact h6 ▸ hPr c a d
          · exact h5 ▸ hPt (Or.inr hu) p ts
        · exact h4 ▸ hPr c a d
      · rcases updateTag_mem s w _ e h3 with h5 | ⟨hu, p, ts, h5⟩
        · rcases bdc_mem w _ _ e h5 with h6 | ⟨c, a, d, h6⟩
          · rcases forceEval_mem s w _ e h6 with h7 | ⟨hf, p, ts, h7⟩
            · simp at h7
            · rcases h7 with h7 | h7
              · exact h7 ▸ hPb hf p ts
              · exact h7 ▸ hPt (Or.inl hf) p ts
          · exact h6 ▸ hPr c a d
        · exact h5 ▸ hPt (Or.inr hu) p ts
    · rcases bdc_mem w _ _ e h2 with h6 | ⟨c, a, d, h6⟩
      · rcases forceEval_mem s w _ e h6 with h7 | ⟨hf, p, ts, h7⟩
        · simp at h7
        · rcases h7 with h7 | h7
          · exact h7 ▸ hPb hf p ts
          · exact h7 ▸ hPt (Or.inl hf) p ts
      · exact h6 ▸ hPr c a d
  · rcases forceEval_mem s w _ e h1 with h7 | ⟨hf, p, ts, h7⟩
    · simp at h7
    · rcases h7 with h7 | h7
      · exact h7 ▸ hPb hf p ts
      · exact h7 ▸ hPt (Or.inl hf) p ts

/-! ### Success-path lemmas -/

theorem pair_snd_none (X : TrSt × Option DErr) (h : X.2 = none) : X = (X.1, none) := by
  obtain ⟨a, b⟩ := X
  simp only at h
  rw [h]

theorem syncStep_ok (s : Settings) (w : World) (st : TrSt)
    (h : w.cmdOutcome st.next = CmdOutcome.exit 0) :
    syncStep s w st = (⟨st.trace ++ [syncEvt s], st.next + 1⟩, none) :=
  runCmdStep_ok w _ _ _ st h

theorem lockSyncStep_ok (s : Settings) (w : World) (st : TrSt)
    (h : w.cmdOutcome st.next = CmdOutcome.exit 0) :
    lockSyncStep s w st = (⟨st.trace ++ [lockSyncEvt s], st.next + 1⟩, none) :=
  runCmdStep_ok w _ _ _ st h

theorem buildStep_ok (os : OS) (s : Settings) (w : World) (st : TrSt)
    (hsup : os = OS.linux "nixos" ∨ os = OS.macos)
    (h : w.cmdOutcome st.next = CmdOutcome.exit 0) :
    ∃ bev, buildStep os s w st = (⟨st.trace ++ [bev], st.next + 1⟩, none)
      ∧ (bev = buildEvtNix ∨ bev = buildEvtDarwin s) := by
  rcases hsup with h1 | h1 <;> subst h1
  · refine ⟨buildEvtNix, ?_, Or.inl rfl⟩
    show (if ("nixos" : String) = "nixos"
        then runCmdStep w "sudo" ["nixos-rebuild", "switch"] none st
        else (st, some DErr.unsupportedOS)) = _
    rw [if_pos rfl]
    exact runCmdStep_ok w _ _ _ st h
  · refine ⟨buildEvtDarwin s, ?_, Or.inr rfl⟩
    exact runCmdStep_ok w _ _ _ st h

theorem updateCommandArgs_ne_nil (os : OS) (s : Settings) :
    updateCommandArgs os s ≠ [] := by
  cases os <;> simp [updateCommandArgs]

/-- The global-update command, when it runs, starts `sudo nix …` off macOS
and `nix flake …` on it. -/
theorem globalUpdateEvt_shape (os : OS) (s : Settings) :
    ∃ rest, globalUpdateEvt os s = Event.run "sudo" ("nix" :: rest) none
      ∨ globalUpdateEvt os s = Event.run "nix" ("flake" :: rest) none := by
  cases os with
  | macos => exact ⟨_, Or.inr rfl⟩
  | linux d => exact ⟨_, Or.inl rfl⟩
  | other => exact ⟨_, Or.inl rfl⟩

theorem globalUpdate_ok (os : OS) (s : Settings) (w : World) (st : TrSt)
    (h : w.cmdOutcome st.next = CmdOutcome.exit 0) :
    ∃ upd n', globalUpdateStep os s w st = (⟨st.trace ++ upd, n'⟩, none)
      ∧ (upd = [] ∨ upd = [globalUpdateEvt os s])
      ∧ (s.update = false → upd = []) := by
  by_cases hu : s.update
  · cases hca : updateCommandArgs os s with
    | nil => exact absurd hca (updateCommandArgs_ne_nil os s)
    | cons c rest =>
      refine ⟨[globalUpdateEvt os s], st.next + 1, ?_, Or.inr rfl,
        fun hf => absurd hu (by simp [hf])⟩
      unfold globalUpdateStep
      rw [if_pos hu, hca]
      show runCmdStep w c rest none st = _
      rw [runCmdStep_ok w c rest none st h]
      have hg : globalUpdateEvt os s = Event.run c rest none := by
        unfold globalUpdateEvt
        rw [hca]
      rw [hg]
  · refine ⟨[], st.next, ?_, Or.inl rfl, fun _ => rfl⟩
    unfold globalUpdateStep
    rw [if_neg hu]
    simp

theorem deployRun_eq (s : Settings) (hostname : String) (w : World) (os : OS)
    (hos : w.osDetect = some os) (hflake : w.flakeExists = true) :
    deployRun s hostname w
      = andThen (prepPhase s hostname w) (fun st =>
        andThen (syncStep s w st) (fun st =>
        andThen (globalUpdateStep os s w st) (fun st =>
        andThen (buildStep os s w st) (fun st =>
        lockSyncStep s w st)))) := by
  unfold deployRun
  rw [hos, hflake]
  rfl

/-- The shape of a successful deployment: the preparation trace, then the
sync, an optional global update, the build, and the lock-state sync-back,
in that order, with success. -/
theorem deployRun_success_shape (s : Settings) (hostname : String) (w : World)
    (os : OS) (stp : TrSt)
    (hos : w.osDetect = some os)
    (hsup : os = OS.linux "nixos" ∨ os = OS.macos)
    (hflake : w.flakeExists = true)
    (hall : ∀ n, w.cmdOutcome n = CmdOutcome.exit 0)
    (hprep : prepPhase s hostname w = (stp, none)) :
    ∃ upd bev n,
      deployRun s hostname w
        = (⟨stp.trace ++ [syncEvt s] ++ upd ++ [bev] ++ [lockSyncEvt s], n⟩, none)
      ∧ (upd = [] ∨ upd = [globalUpdateEvt os s])
      ∧ (s.update = false → upd = [])
      ∧ (bev = buildEvtNix ∨ bev = buildEvtDarwin s) := by
  obtain ⟨upd, n1, hupd, hup1, hup2⟩ :=
    globalUpdate_ok os s w ⟨stp.trace ++ [syncEvt s], stp.next + 1⟩ (hall _)
  obtain ⟨bev, hbev, hbev2⟩ :=
    buildStep_ok os s w ⟨(stp.trace ++ [syncEvt s]) ++ upd, n1⟩ hsup (hall _)
  have hfinal : deployRun s hostname w
      = (⟨(((stp.trace ++ [syncEvt s]) ++ upd) ++ [bev]) ++ [lockSyncEvt s],
          n1 + 1 + 1⟩, none) := by
    rw [deployRun_eq s hostname w os hos hflake, hprep, andThen_ok,
      syncStep_ok s w stp (hall _), andThen_ok, hupd, andThen_ok, hbev, andThen_ok,
      lockSyncStep_ok s w _ (hall _)]
  exact ⟨upd, bev, n1 + 1 + 1, hfinal, hup1, hup2, hbev2⟩

/-! ### Success of the preparation phase -/

theorem composeLoop_ok (w : World) (hall : ∀ n, w.cmdOutcome n = CmdOutcome.exit 0) :
    ∀ (items : List ComposeItem) (st : TrSt),
      (∀ it ∈ items, it.parent.isSome → it.dirName.isSome) →
      (composeConvertLoop w items st).2 = none := by
  intro items
  induction items with
  | nil => intro st _; rfl
  | cons item rest ih =>
    intro st hok
    obtain ⟨ipath, ipar, idn, ic2n⟩ := item
    cases ipar with
    | none => exact ih st (fun it hit => hok it (List.mem_cons_of_mem _ hit))
    | some dir =>
      cases idn with
      | none =>
        have hfalse := hok ⟨ipath, some dir, none, ic2n⟩ (List.mem_cons_self _ _) (by simp)
        simp at hfalse
      | some name =>
        cases ic2n with
        | some contents =>
          show (match splitWhitespace contents with
            | cmd :: params => runCmdStep w cmd params (some dir) st
            | [] =>
              andThen (runCmdStep w "compose2nix" ["-project", name] (some dir) st)
                (fun st' => composeConvertLoop w rest st')).2 = none
          cases hsw : splitWhitespace contents with
          | cons cmd params =>
            show (runCmdStep w cmd params (some dir) st).2 = none
            rw [runCmdStep_ok w cmd params (some dir) st (hall _)]
          | nil =>
            show (andThen (runCmdStep w "compose2nix" ["-project", name] (some dir) st)
              (fun st' => composeConvertLoop w rest st')).2 = none
            rw [runCmdStep_ok w "compose2nix" ["-project", name] (some dir) st (hall _),
              andThen_ok]
            exact ih _ (fun it hit => hok it (List.mem_cons_of_mem _ hit))
        | none =>
          show (andThen (runCmdStep w "compose2nix" ["-project", name] (some dir) st)
            (fun st' => composeConvertLoop w rest st')).2 = none
          rw [runCmdStep_ok w "compose2nix" ["-project", name] (some dir) st (hall _),
            andThen_ok]
          exact ih _ (fun it hit => hok it (List.mem_cons_of_mem _ hit))

theorem updateInput_snd (s : Settings) (w : World) (st : TrSt) :
    (updateInputStep s w st).2 = none := by
  unfold updateInputStep
  cases s.update_input <;> rfl

theorem prep_ok (s : Settings) (hostname : String) (w : World)
    (hall : ∀ n, w.cmdOutcome n = CmdOutcome.exit 0)
    (hfe : s.force_evaluation = false) (hup : s.update = false)
    (items : List ComposeItem)
    (hsearch : w.searchCompose (s.config_path ++ "/systems/" ++ hostname) = some items)
    (hok : ∀ it ∈ items, it.parent.isSome → it.dirName.isSome) :
    ∃ stp, prepPhase s hostname w = (stp, none) := by
  unfold prepPhase
  have h1 : forceEvalStep s w ⟨[], 0⟩ = (⟨[], 0⟩, none) := by
    unfold forceEvalStep
    rw [hfe]
    rfl
  rw [h1, andThen_ok]
  have h2 : (buildDockerComposeYml w (s.config_path ++ "/systems/" ++ hostname) ⟨[], 0⟩).2
      = none := by
    unfold buildDockerComposeYml
    rw [hsearch]
    show (if items.length = 0 then ((⟨[], 0⟩ : TrSt), (none : Option DErr))
      else composeConvertLoop w items ⟨[], 0⟩).2 = none
    by_cases hl : items.length = 0
    · rw [if_pos hl]
    · rw [if_neg hl]
      exact composeLoop_ok w hall items _ hok
  rw [pair_snd_none _ h2, andThen_ok]
  have h3 : updateTagStep s w (buildDockerComposeYml w
      (s.config_path ++ "/systems/" ++ hostname) ⟨[], 0⟩).1
      = ((buildDockerComposeYml w (s.config_path ++ "/systems/" ++ hostname) ⟨[], 0⟩).1,
        none) := by
    unfold updateTagStep
    rw [hup]
    rfl
  rw [h3, andThen_ok]
  exact ⟨_, pair_snd_none _ (updateInput_snd s w _)⟩

/-! ### Event disequalities -/

theorem buildEvtNix_ne_syncEvt (s : Settings) : buildEvtNix ≠ syncEvt s := by
  simp [buildEvtNix, syncEvt]

theorem buildEvtDarwin_ne_syncEvt (s s' : Settings) : buildEvtDarwin s ≠ syncEvt s' := by
  simp [buildEvtDarwin, syncEvt]

theorem buildEvtNix_ne_darwin (s : Settings) : buildEvtNix ≠ buildEvtDarwin s := by
  simp [buildEvtNix, buildEvtDarwin]

theorem buildEvtNix_ne_lockSyncEvt (s : Settings) : buildEvtNix ≠ lockSyncEvt s := by
  simp [buildEvtNix, lockSyncEvt]

theorem buildEvtDarwin_ne_lockSyncEvt (s s' : Settings) :
    buildEvtDarwin s ≠ lockSyncEvt s' := by
  simp [buildEvtDarwin, lockSyncEvt]

theorem globalUpdateEvt_ne_syncEvt (os : OS) (s s' : Settings) :
    globalUpdateEvt os s ≠ syncEvt s' := by
  obtain ⟨rest, hg | hg⟩ := globalUpdateEvt_shape os s <;> rw [hg] <;> simp [syncEvt]

theorem globalUpdateEvt_ne_lockSyncEvt (os : OS) (s s' : Settings) :
    globalUpdateEvt os s ≠ lockSyncEvt s' := by
  obtain ⟨rest, hg | hg⟩ := globalUpdateEvt_shape os s <;> rw [hg] <;> simp [lockSyncEvt]

theorem globalUpdateEvt_ne_buildNix (os : OS) (s : Settings) :
    globalUpdateEvt os s ≠ buildEvtNix := by
  obtain ⟨rest, hg | hg⟩ := globalUpdateEvt_shape os s <;> rw [hg] <;> simp [buildEvtNix]

theorem globalUpdateEvt_ne_buildDarwin (os : OS) (s s' : Settings) :
    globalUpdateEvt os s ≠ buildEvtDarwin s' := by
  obtain ⟨rest, hg | hg⟩ := globalUpdateEvt_shape os s <;> rw [hg] <;> simp [buildEvtDarwin]

/-- Claim C1: with the manifest present and both the update and
force-evaluation flags off, a deployment whose environment queries and
child processes succeed performs exactly one config → install sync
(additive mode) and exactly one build-and-apply call, and performs no
tagging or backup step and no global-update step. -/
theorem c1_end_to_end (s : Settings) (hostname : String) (w : World) (os : OS)
    (items : List ComposeItem)
    (hos : w.osDetect = some os)
    (hsup : os = OS.linux "nixos" ∨ os = OS.macos)
    (hflake : w.flakeExists = true)
    (hfe : s.force_evaluation = false)
    (hup : s.update = false)
    (hall : ∀ n, w.cmdOutcome n = CmdOutcome.exit 0)
    (hsearch : w.searchCompose (s.config_path ++ "/systems/" ++ hostname) = some items)
    (hok : ∀ it ∈ items, it.parent.isSome → it.dirName.isSome) :
    (deployRun s hostname w).2 = none
    ∧ ((deployRun s hostname w).1.trace).count (syncEvt s) = 1
    ∧ ((deployRun s hostname w).1.trace).count buildEvtNix
        + ((deployRun s hostname w).1.trace).count (buildEvtDarwin s) = 1
    ∧ (∀ p ts, Event.tag p ts ∉ (deployRun s hostname w).1.trace)
    ∧ (∀ p ts, Event.backup p ts ∉ (deployRun s hostname w).1.trace)
    ∧ globalUpdateEvt os s ∉ (deployRun s hostname w).1.trace := by
  obtain ⟨stp, hprep⟩ := prep_ok s hostname w hall hfe hup items hsearch hok
  obtain ⟨upd, bev, n, hrun, _hup1, hup2, hbev⟩ :=
    deployRun_success_shape s hostname w os stp hos hsup hflake hall hprep
  have hnil : upd = [] := hup2 hup
  subst hnil
  have hpre : ∀ e ∈ stp.trace, isDirRun e := by
    have hh := prepPhase_trace_pres s hostname w isDirRun
      (fun hf => absurd hf (by simp [hfe]))
      (fun hor => absurd hor (by simp [hfe, hup]))
      (fun c a d => True.intro)
    rw [hprep] at hh
    exact hh
  have hnotin : ∀ (x : Event), (∃ c a, x = Event.run c a none) → x ∉ stp.trace := by
    rintro x ⟨c, a, rfl⟩ hm
    exact (hpre _ hm : False)
  have hstp_sync : stp.trace.count (syncEvt s) = 0 :=
    List.count_eq_zero.mpr (hnotin _ ⟨_, _, rfl⟩)
  have hstp_nix : stp.trace.count buildEvtNix = 0 :=
    List.count_eq_zero.mpr (hnotin _ ⟨_, _, rfl⟩)
  have hstp_dar : stp.trace.count (buildEvtDarwin s) = 0 :=
    List.count_eq_zero.mpr (hnotin _ ⟨_, _, rfl⟩)
  have hls : ¬ lockSyncEvt s = syncEvt s := fun h => syncEvt_ne_lockSyncEvt s s h.symm
  have hsl : ¬ syncEvt s = lockSyncEvt s := syncEvt_ne_lockSyncEvt s s
  rw [hrun]
  simp only [List.append_nil]
  refine ⟨by trivial, ?_, ?_, ?_, ?_, ?_⟩
  · simp only [List.count_append, hstp_sync]
    rcases hbev with hb | hb <;> subst hb <;>
      simp [List.count_cons, beq_iff_eq, buildEvtNix_ne_syncEvt s,
        buildEvtDarwin_ne_syncEvt s s, hls, hsl]
  · simp only [List.count_append, hstp_nix, hstp_dar]
    rcases hbev with hb | hb <;> subst hb <;>
      simp [List.count_cons, beq_iff_eq, (buildEvtNix_ne_syncEvt s).symm,
        (buildEvtDarwin_ne_syncEvt s s).symm, buildEvtNix_ne_darwin s,
        (buildEvtNix_ne_darwin s).symm, buildEvtNix_ne_lockSyncEvt s,
        (buildEvtNix_ne_lockSyncEvt s).symm, buildEvtDarwin_ne_lockSyncEvt s s,
        (buildEvtDarwin_ne_lockSyncEvt s s).symm]
  · intro p ts hm
    simp only [List.mem_append] at hm
    rcases hm with ((hm | hm) | hm) | hm
    · exact (hpre _ hm : False)
    · simp [syncEvt] at hm
    · rcases hbev with hb | hb <;> subst hb <;> simp [buildEvtNix, buildEvtDarwin] at hm
    · simp [lockSyncEvt] at hm
  · intro p ts hm
    simp only [List.mem_append] at hm
    rcases hm with ((hm | hm) | hm) | hm
    · exact (hpre _ hm : False)
    · simp [syncEvt] at hm
    · rcases hbev with hb | hb <;> subst hb <;> simp [buildEvtNix, buildEvtDarwin] at hm
    · simp [lockSyncEvt] at hm
  · intro hm
    simp only [List.mem_append] at hm
    rcases hm with ((hm | hm) | hm) | hm
    · obtain ⟨rest, hg | hg⟩ := globalUpdateEvt_shape os s <;> rw [hg] at hm <;>
        exact (hpre _ hm : False)
    · simp only [List.mem_singleton] at hm
      exact globalUpdateEvt_ne_syncEvt os s s hm
    · simp only [List.mem_singleton] at hm
      rcases hbev with hb | hb <;> subst hb
      · exact globalUpdateEvt_ne_buildNix os s hm
      · exact globalUpdateEvt_ne_buildDarwin os s s hm
    · simp only [List.mem_singleton] at hm
      exact globalUpdateEvt_ne_lockSyncEvt os s s hm

theorem globalUpdate_mem (os : OS) (s : Settings) (w : World) (st : TrSt)
    (r : TrSt × Option DErr) (h : globalUpdateStep os s w st = r) :
    ∀ ev ∈ r.1.trace, ev ∈ st.trace ∨ ev = globalUpdateEvt os s := by
  intro ev hm
  rw [← h] at hm
  unfold globalUpdateStep at hm
  by_cases hu : s.update
  · rw [if_pos hu] at hm
    unfold realtimeCommandVec at hm
    cases hca : updateCommandArgs os s with
    | nil => rw [hca] at hm; exact Or.inl hm
    | cons c rest =>
      rw [hca] at hm
      have hm' : ev ∈ (runCmdStep w c rest none st).1.trace := hm
      rw [runCmdStep_fst] at hm'
      simp only at hm'
      rcases List.mem_append.mp hm' with h1 | h1
      · exact Or.inl h1
      · simp only [List.mem_singleton] at h1
        refine Or.inr ?_
        rw [h1]
        unfold globalUpdateEvt
        rw [hca]
  · rw [if_neg hu] at hm
    exact Or.inl hm

theorem buildStep_mem (os : OS) (s : Settings) (w : World) (st : TrSt)
    (r : TrSt × Option DErr) (h : buildStep os s w st = r) :
    ∀ ev ∈ r.1.trace, ev ∈ st.trace ∨ ev = buildEvtNix ∨ ev = buildEvtDarwin s := by
  intro ev hm
  rw [← h] at hm
  cases os with
  | linux d =>
    have hm' : ev ∈ (if d = "nixos"
        then runCmdStep w "sudo" ["nixos-rebuild", "switch"] none st
        else (st, some DErr.unsupportedOS)).1.trace := hm
    by_cases hd : d = "nixos"
    · rw [if_pos hd] at hm'
      rw [runCmdStep_fst] at hm'
      simp only at hm'
      rcases List.mem_append.mp hm' with h1 | h1
      · exact Or.inl h1
      · simp only [List.mem_singleton] at h1
        exact Or.inr (Or.inl h1)
    · rw [if_neg hd] at hm'
      exact Or.inl hm'
  | macos =>
    have hm' : ev ∈ (runCmdStep w "darwin-rebuild" ["switch", "--flake", s.install_path]
        none st).1.trace := hm
    rw [runCmdStep_fst] at hm'
    simp only at hm'
    rcases List.mem_append.mp hm' with h1 | h1
    · exact Or.inl h1
    · simp only [List.mem_singleton] at h1
      exact Or.inr (Or.inr h1)
  | other => exact Or.inl hm

/-- Claim C2: fail-fast ordering.  When the config → install sync step
fails, the result of the whole deployment is that error, no build event
(NixOS or macOS) is in the trace, and the lock-state sync-back was never
invoked; when the sync and the conditional global update succeed but the
build-and-apply step fails, the result is the build error and the
lock-state sync-back was never invoked. -/
theorem c2_fail_fast (s : Settings) (hostname : String) (w : World) (os : OS)
    (stp : TrSt)
    (hos : w.osDetect = some os)
    (hflake : w.flakeExists = true)
    (hprep : prepPhase s hostname w = (stp, none)) :
    (∀ ste e, syncStep s w stp = (ste, some e) →
      deployRun s hostname w = (ste, some e)
      ∧ (∀ ev ∈ ste.trace, ev ≠ buildEvtNix ∧ ev ≠ buildEvtDarwin s)
      ∧ lockSyncEvt s ∉ ste.trace)
    ∧ (∀ sts stu stb e, syncStep s w stp = (sts, none) →
        globalUpdateStep os s w sts = (stu, none) →
        buildStep os s w stu = (stb, some e) →
      deployRun s hostname w = (stb, some e)
      ∧ lockSyncEvt s ∉ stb.trace) := by
  have hpre : ∀ e ∈ stp.trace, preEvt e := by
    have hh := prepPhase_trace_pres s hostname w preEvt
      (fun _ _ _ => True.intro)
      (fun _ _ _ => True.intro)
      (fun _ _ _ => True.intro)
    rw [hprep] at hh
    exact hh
  constructor
  · intro ste e hsync
    have h1 : (syncStep s w stp).1 = ⟨stp.trace ++ [syncEvt s], stp.next + 1⟩ :=
      runCmdStep_fst w _ _ _ stp
    rw [hsync] at h1
    have htr : ste.trace = stp.trace ++ [syncEvt s] := congrArg TrSt.trace h1
    refine ⟨?_, ?_, ?_⟩
    · rw [deployRun_eq s hostname w os hos hflake, hprep, andThen_ok, hsync, andThen_err]
    · intro ev hmem
      rw [htr] at hmem
      rcases List.mem_append.mp hmem with hm | hm
      · exact ⟨fun hh => (hpre buildEvtNix (hh ▸ hm) : False),
          fun hh => (hpre (buildEvtDarwin s) (hh ▸ hm) : False)⟩
      · simp only [List.mem_singleton] at hm
        subst hm
        exact ⟨fun hh => buildEvtNix_ne_syncEvt s hh.symm,
          fun hh => buildEvtDarwin_ne_syncEvt s s hh.symm⟩
    · intro hmem
      rw [htr] at hmem
      rcases List.mem_append.mp hmem with hm | hm
      · exact (hpre _ hm : False)
      · simp only [List.mem_singleton] at hm
        exact syncEvt_ne_lockSyncEvt s s hm.symm
  · intro sts stu stb e hsync hupd hbuild
    refine ⟨?_, ?_⟩
    · rw [deployRun_eq s hostname w os hos hflake, hprep, andThen_ok, hsync, andThen_ok,
        hupd, andThen_ok, hbuild, andThen_err]
    · intro hmem
      have h1 : (syncStep s w stp).1 = ⟨stp.trace ++ [syncEvt s], stp.next + 1⟩ :=
        runCmdStep_fst w _ _ _ stp
      rw [hsync] at h1
      have htr : sts.trace = stp.trace ++ [syncEvt s] := congrArg TrSt.trace h1
      rcases buildStep_mem os s w stu (stb, some e) hbuild _ hmem with hm | hm | hm
      · rcases globalUpdate_mem os s w sts (stu, none) hupd _ hm with hm2 | hm2
        · rw [htr] at hm2
          rcases List.mem_append.mp hm2 with hm3 | hm3
          · exact (hpre _ hm3 : False)
          · simp only [List.mem_singleton] at hm3
            exact syncEvt_ne_lockSyncEvt s s hm3.symm
        · exact globalUpdateEvt_ne_lockSyncEvt os s s (hm2.symm ▸ rfl)
      · exact buildEvtNix_ne_lockSyncEvt s (hm ▸ rfl)
      · exact buildEvtDarwin_ne_lockSyncEvt s s (hm ▸ rfl)

/-! ### Substring search (for stating the absence of an rsync deletion
option: every rsync deletion option starts with `--del`) -/

def hasSubstr : List Char → List Char → Bool
  | [], pat => pat.isPrefixOf []
  | c :: t, pat => pat.isPrefixOf (c :: t) || hasSubstr t pat

/-! ### Example settings and worlds for concrete runs -/

def exSettings : Settings where
  force_evaluation := false
  update := false
  show_trace := false
  config_path := "/cfg"
  install_path := "/inst"
  sync_exclusions := [".gitignore", ".stfolder", ".git", ".concierge-backup"]
  fallback := false
  update_input := none

def exWorldOK : World where
  osDetect := some (OS.linux "nixos")
  deploymentTime := "2024-01-01T00:00:00+10:00"
  backupTime := "2024-01-01T00:00:01+10:00"
  flakeExists := true
  backupFails := false
  tagFails := fun _ => false
  searchCompose := fun _ => some []
  searchFiles := fun _ => some []
  cmdOutcome := fun _ => CmdOutcome.exit 0

def exWorldSyncFail : World :=
  { exWorldOK with
    cmdOutcome := fun n => if n = 0 then CmdOutcome.exit 23 else CmdOutcome.exit 0 }

def c3Settings : Settings := { exSettings with update_input := some "nixpkgs" }

def c3World : World :=
  { exWorldOK with
    cmdOutcome := fun n => if n = 0 then CmdOutcome.exit 1 else CmdOutcome.exit 0 }

def c6Items : List ComposeItem :=
  [⟨"/cfg/systems/host/app1/docker-compose.yml", some "/cfg/systems/host/app1",
      some "app1", some "mycmd --flag"⟩,
   ⟨"/cfg/systems/host/app2/docker-compose.yml", some "/cfg/systems/host/app2",
      some "app2", none⟩]

def c6World : World := { exWorldOK with searchCompose := fun _ => some c6Items }

/-! ### The remaining claims -/

/-- Concrete instance of C1: a NixOS deployment with no compose files,
every process succeeding, both flags off. -/
theorem c1_witness :
    (deployRun exSettings "host" exWorldOK).2 = none
    ∧ ((deployRun exSettings "host" exWorldOK).1.trace).count (syncEvt exSettings) = 1
    ∧ ((deployRun exSettings "host" exWorldOK).1.trace).count buildEvtNix
        + ((deployRun exSettings "host" exWorldOK).1.trace).count
            (buildEvtDarwin exSettings) = 1
    ∧ (∀ p ts, Event.tag p ts ∉ (deployRun exSettings "host" exWorldOK).1.trace)
    ∧ (∀ p ts, Event.backup p ts ∉ (deployRun exSettings "host" exWorldOK).1.trace)
    ∧ globalUpdateEvt (OS.linux "nixos") exSettings
        ∉ (deployRun exSettings "host" exWorldOK).1.trace :=
  c1_end_to_end exSettings "host" exWorldOK (OS.linux "nixos") [] rfl (Or.inl rfl) rfl
    rfl rfl (fun _ => rfl) rfl (by simp)

/-- Concrete instance of C2: the sync command exits 23; the deployment
stops with that error and the build and lock-sync never run. -/
theorem c2_witness :
    deployRun exSettings "host" exWorldSyncFail
        = (⟨[syncEvt exSettings], 1⟩,
          some (DErr.procExit "nix-shell"
            ["-p", "rsync", "--run",
              rsyncCommandString exSettings.config_path exSettings.install_path
                exSettings.sync_exclusions additiveSyncParams true] 23))
    ∧ lockSyncEvt exSettings ∉ (⟨[syncEvt exSettings], 1⟩ : TrSt).trace := by
  have h := (c2_fail_fast exSettings "host" exWorldSyncFail (OS.linux "nixos") ⟨[], 0⟩
    rfl rfl (by decide)).1
    ⟨[syncEvt exSettings], 1⟩
    (DErr.procExit "nix-shell"
      ["-p", "rsync", "--run",
        rsyncCommandString exSettings.config_path exSettings.install_path
          exSettings.sync_exclusions additiveSyncParams true] 23)
    (by decide)
  exact ⟨h.1, h.2.2⟩

/-- Claim C3, evaluated at the failing input: with `update_input` set to
`nixpkgs` and the input-pinning command (`nix flake lock --update-input
nixpkgs`, the first spawned process) exiting 1, the orchestrator still
returns success — the source discards the `Result` of that call
(deploy.rs lines 62-69 lack the `?`), so the failure is silently
ignored, contradicting the claim that every nonzero exit is surfaced. -/
theorem c3_update_input_failure_ignored :
    c3World.cmdOutcome 0 = CmdOutcome.exit 1
    ∧ (deployRun c3Settings "host" c3World).1.trace.get? 0
        = some (Event.run "nix" ["flake", "lock", "--update-input", "nixpkgs"]
            (some c3Settings.config_path))
    ∧ (deployRun c3Settings "host" c3World).2 = none := by decide

/-- Claim C4, corrected: in every successful deployment the lock-state
sync-back runs exactly once, runs last, goes from the install path back to
the config path restricted to lock files by rsync include/exclude filters
(`-aim --include='*.lock' --include='*/' --exclude='*'`) — but it is not
a mirror: none of the rsync options the code passes (for either sync
direction) is a deletion option (all rsync deletion options start with
`--del`), so destination files absent from the source are not deleted and
both syncs are additive. -/
theorem c4_lock_sync_restricted (s : Settings) (hostname : String) (w : World)
    (os : OS) (stp : TrSt)
    (hos : w.osDetect = some os)
    (hsup : os = OS.linux "nixos" ∨ os = OS.macos)
    (hflake : w.flakeExists = true)
    (hall : ∀ n, w.cmdOutcome n = CmdOutcome.exit 0)
    (hprep : prepPhase s hostname w = (stp, none)) :
    (deployRun s hostname w).2 = none
    ∧ ((deployRun s hostname w).1.trace).count (lockSyncEvt s) = 1
    ∧ ((deployRun s hostname w).1.trace).getLast? = some (lockSyncEvt s)
    ∧ hasSubstr (extraParamsString lockSyncParams).data "--del".data = false
    ∧ hasSubstr (exclusionsString ["*"]).data "--del".data = false
    ∧ hasSubstr (extraParamsString additiveSyncParams).data "--del".data = false := by
  obtain ⟨upd, bev, n, hrun, hup1, _hup2, hbev⟩ :=
    deployRun_success_shape s hostname w os stp hos hsup hflake hall hprep
  have hpre : ∀ e ∈ stp.trace, preEvt e := by
    have hh := prepPhase_trace_pres s hostname w preEvt
      (fun _ _ _ => True.intro)
      (fun _ _ _ => True.intro)
      (fun _ _ _ => True.intro)
    rw [hprep] at hh
    exact hh
  have hstp : stp.trace.count (lockSyncEvt s) = 0 :=
    List.count_eq_zero.mpr (fun hm => (hpre (lockSyncEvt s) hm : False))
  have hsl : ¬ syncEvt s = lockSyncEvt s := syncEvt_ne_lockSyncEvt s s
  have hupd0 : upd.count (lockSyncEvt s) = 0 := by
    rcases hup1 with h | h <;> subst h
    · rfl
    · simp [List.count_cons, beq_iff_eq,
        fun hh => globalUpdateEvt_ne_lockSyncEvt os s s hh]
  have hbev0 : ¬ bev = lockSyncEvt s := by
    rcases hbev with h | h <;> subst h
    · exact buildEvtNix_ne_lockSyncEvt s
    · exact buildEvtDarwin_ne_lockSyncEvt s s
  rw [hrun]
  refine ⟨rfl, ?_, ?_, by decide, by decide, by decide⟩
  · simp only [List.count_append, hstp, hupd0]
    simp [List.count_cons, beq_iff_eq, hsl, hbev0]
  · show (((stp.trace ++ [syncEvt s] ++ upd ++ [bev]) ++ [lockSyncEvt s])).getLast?
      = some (lockSyncEvt s)
    exact List.getLast?_concat _

/-- Concrete instance of the corrected C4. -/
theorem c4_witness :
    (deployRun exSettings "host" exWorldOK).2 = none
    ∧ ((deployRun exSettings "host" exWorldOK).1.trace).count (lockSyncEvt exSettings) = 1
    ∧ ((deployRun exSettings "host" exWorldOK).1.trace).getLast?
        = some (lockSyncEvt exSettings)
    ∧ hasSubstr (extraParamsString lockSyncParams).data "--del".data = false
    ∧ hasSubstr (exclusionsString ["*"]).data "--del".data = false
    ∧ hasSubstr (extraParamsString additiveSyncParams).data "--del".data = false :=
  c4_lock_sync_restricted exSettings "host" exWorldOK (OS.linux "nixos") ⟨[], 0⟩
    rfl (Or.inl rfl) rfl (fun _ => rfl) (by decide)

/-- Claim C4 as stated is false at a concrete successful deployment: the
lock-state sync-back event is in the trace, and its full rsync invocation
string contains no deletion option (`--del` does not occur in it), so
destination files absent from the source are not deleted — the sync-back
is not a mirror. -/
theorem c4_counterexample :
    lockSyncEvt exSettings ∈ (deployRun exSettings "host" exWorldOK).1.trace
    ∧ hasSubstr (rsyncCommandString exSettings.install_path exSettings.config_path
        ["*"] lockSyncParams true).data "--del".data = false := by decide

/-- Claim C6, evaluated at the failing input: two directories with
`docker-compose.yml`, the first carrying a non-empty `.compose2nix`.  The
conversion step runs the custom command for the first directory and then
returns from the whole loop (the `return Ok(())` at deploy.rs line 264),
so the second directory's converter never runs — contradicting the claim
that an override in one directory does not prevent the remaining
directories from being converted. -/
theorem c6_compose_override_stops_loop :
    (buildDockerComposeYml c6World "/cfg/systems/host" ⟨[], 0⟩).2 = none
    ∧ (buildDockerComposeYml c6World "/cfg/systems/host" ⟨[], 0⟩).1.trace
        = [Event.run "mycmd" ["--flag"] (some "/cfg/systems/host/app1")]
    ∧ Event.run "compose2nix" ["-project", "app2"] (some "/cfg/systems/host/app2")
        ∉ (buildDockerComposeYml c6World "/cfg/systems/host" ⟨[], 0⟩).1.trace := by
  decide

/-- Claim C8 as stated is false: after `Settings::new` returns, `main`
mutates the record through the CLI-flag setters — with `--force-eval`
given, the `force_evaluation` field changes after construction. -/
theorem c8_counterexample :
    (applyFlags ⟨true, false, false, false, none⟩
        (Settings.new (OS.linux "nixos") "/home/user")).force_evaluation
      ≠ (Settings.new (OS.linux "nixos") "/home/user").force_evaluation := by decide

/-- Claim C8, corrected: the record `Settings::new` constructs is mutated
only by the four CLI-flag setter calls in `main`, each setting exactly its
own flag; the paths, the exclusion list and the update-input field are
never changed, and each flag field ends up equal to its CLI flag. -/
theorem c8_flag_application (args : Args) (os : OS) (home : String) :
    (applyFlags args (Settings.new os home)).config_path
        = (Settings.new os home).config_path
    ∧ (applyFlags args (Settings.new os home)).install_path
        = (Settings.new os home).install_path
    ∧ (applyFlags args (Settings.new os home)).sync_exclusions
        = (Settings.new os home).sync_exclusions
    ∧ (applyFlags args (Settings.new os home)).update_input
        = (Settings.new os home).update_input
    ∧ (applyFlags args (Settings.new os home)).force_evaluation = args.force_eval
    ∧ (applyFlags args (Settings.new os home)).update = args.update
    ∧ (applyFlags args (Settings.new os home)).fallback = args.fallback
    ∧ (applyFlags args (Settings.new os home)).show_trace = args.show_trace := by
  obtain ⟨fe, up, fb, stt, ui⟩ := args
  cases fe <;> cases up <;> cases fb <;> cases stt <;>
    simp [applyFlags, Settings.forceEvaluationSet, Settings.updateSet,
      Settings.fallbackSet, Settings.showTraceSet, Settings.new]
